import Mathlib

/-!
Shallow embedding of `src/main.py` (loansim): a multi-loan repayment
simulator.  Money is modelled in integer pennies (`ℤ`), the loan's stored
annual interest rate as an exact rational (`ℚ`), and the derived
floating-point rate computations (`monthly_rate`, the annuity formula,
present values) in exact real arithmetic (`ℝ`).  Python runtime failures —
the `assert` in `Loan.make_payment`, `ZeroDivisionError` in
`minimum_payment_pennies`, and the `None * 100` `TypeError` in
`Simulation.__init__` — are modelled by `Option`/`Except` results, with
`none`/`.error` meaning the Python process dies at that point.
-/

/-- Embeds the `Loan` dataclass (src/main.py lines 49-54): a name, owed
principal in pennies, accrued ("current") interest in pennies, and the
annual interest rate. -/
structure Loan where
  name : String
  principle_pennies : ℤ
  current_interest_pennies : ℤ
  interest_rate : ℚ
deriving Repr, DecidableEq

namespace Loan

/-- `Loan.balance` (line 57): principal plus accrued interest. -/
def balance (l : Loan) : ℤ := l.principle_pennies + l.current_interest_pennies

/-- `Loan.daily_rate` (line 61): `interest_rate / 365`. -/
noncomputable def daily_rate (l : Loan) : ℝ := (l.interest_rate : ℝ) / 365

/-- `Loan.monthly_rate` (line 65): daily rate compounded across a year,
then an equivalent monthly rate backed out:
`((1 + daily_rate)^365)^(1/12) - 1`. -/
noncomputable def monthly_rate (l : Loan) : ℝ :=
  ((1 + l.daily_rate) ^ (365 : ℕ)) ^ ((1 : ℝ) / 12) - 1

/-- `Loan.accrue_one_month_interest` (line 70): adds
`ceil(principle_pennies * monthly_rate)` to the accrued interest.  The
basis is the principal only, not the full balance. -/
noncomputable def accrue_one_month_interest (l : Loan) : Loan :=
  { l with current_interest_pennies :=
      l.current_interest_pennies + ⌈(l.principle_pennies : ℝ) * l.monthly_rate⌉ }

open Classical in
/-- `Loan.minimum_payment_pennies` (line 76): full balance at
`months_remaining = 0`, otherwise the annuity formula
`ceil(balance * (rate·(1+rate)^n) / ((1+rate)^n - 1))`.  Python raises
`ZeroDivisionError` when the float denominator is zero, modelled by
`none`. -/
noncomputable def minimum_payment_pennies (l : Loan) (months_remaining : ℕ) : Option ℤ :=
  if months_remaining = 0 then some l.balance
  else
    let numerator := l.monthly_rate * (1 + l.monthly_rate) ^ months_remaining
    let denominator := (1 + l.monthly_rate) ^ months_remaining - 1
    if denominator = 0 then none
    else some ⌈(l.balance : ℝ) * (numerator / denominator)⌉

/-- `Loan.make_payment` (line 84): if the amount is below the accrued
interest, subtract it from the interest; otherwise clear the interest and
take the remainder from the principal, asserting the principal stays
non-negative.  A failed assertion (overpayment) is `none`. -/
def make_payment (l : Loan) (amount_pennies : ℤ) : Option Loan :=
  if amount_pennies < l.current_interest_pennies then
    some { l with current_interest_pennies := l.current_interest_pennies - amount_pennies }
  else if 0 ≤ l.principle_pennies - (amount_pennies - l.current_interest_pennies) then
    some { l with current_interest_pennies := 0,
                  principle_pennies :=
                    l.principle_pennies - (amount_pennies - l.current_interest_pennies) }
  else none

end Loan

/-- `LoanPortfolio.__init__` (lines 96-99): keeps the loans sorted by
decreasing interest rate (Python's stable sort with `reverse=True`). -/
def portfolio_init (loans : List Loan) : List Loan :=
  loans.mergeSort (fun a b => b.interest_rate ≤ a.interest_rate)

/-- `LoanPortfolio.balance_pennies` (line 101): sum of the loans' balances. -/
def balance_pennies (loans : List Loan) : ℤ := (loans.map Loan.balance).sum

/-- `LoanPortfolio.make_additional_payment` (lines 119-133): walk the loans
in order; stop once the amount is spent; skip paid-off loans; fully retire
any loan whose balance fits in the remaining amount; partially pay the
first loan that does not fit and stop. -/
def make_additional_payment : List Loan → ℤ → Option (List Loan)
  | [], _ => some []
  | l :: rest, amount =>
    if amount ≤ 0 then some (l :: rest)
    else if l.balance ≤ 0 then (make_additional_payment rest amount).map (l :: ·)
    else if l.balance ≤ amount then
      (l.make_payment l.balance).bind fun l2 =>
        (make_additional_payment rest (amount - l.balance)).map (l2 :: ·)
    else (l.make_payment amount).map (· :: rest)

/-- `LoanPortfolio.simulate_one_month_minimum_payments` (lines 108-117):
for each loan in order, compute its minimum payment, accrue one month of
interest, then pay the minimum; return the updated loans and the sum of
the minimums. -/
noncomputable def simulate_one_month_minimum_payments :
    List Loan → ℕ → Option (List Loan × ℤ)
  | [], _ => some ([], 0)
  | l :: rest, months_remaining => do
    let minimum ← l.minimum_payment_pennies months_remaining
    let l2 ← (l.accrue_one_month_interest).make_payment minimum
    let (rest2, total) ← simulate_one_month_minimum_payments rest months_remaining
    some (l2 :: rest2, minimum + total)

/-- The `PaymentHistory` dataclass (lines 159-163): the annual savings
(discount) rate, the running nominal total, and the running
present-value-discounted total. -/
structure PaymentHistory where
  savings_rate : ℚ
  real_pennies : ℤ
  adjusted_pennies : ℝ

/-- `PaymentHistory.make_payment` (line 165): adds `amount` to the nominal
total and `amount / (1 + savings_rate/12)^months_in_the_future` to the
discounted total. -/
noncomputable def PaymentHistory.make_payment (h : PaymentHistory) (amount : ℤ)
    (months_in_the_future : ℕ) : PaymentHistory :=
  { h with real_pennies := h.real_pennies + amount,
           adjusted_pennies := h.adjusted_pennies +
             (amount : ℝ) / (1 + (h.savings_rate : ℝ) / 12) ^ months_in_the_future }

/-- The error that kills a `Simulation.__init__` call (lines 171-184):
either the explicit `assert` on the employer options, or the `TypeError`
Python raises on `None * 100`. -/
inductive InitError where
  | assertionError : InitError
  | typeError : InitError
deriving Repr, DecidableEq

/-- `Simulation.__init__`, employer-option handling only (lines 180-184):
asserts that the employer amount and month are both given or both absent,
then unconditionally computes `employer_amount * 100` — which in Python
raises `TypeError` when `employer_amount` is `None`. -/
def sim_init_employer (employer_amount : Option ℚ) (employer_month : Option ℕ) :
    Except InitError (ℚ × ℕ) :=
  if (employer_amount = none ∧ employer_month = none) ∨
     (employer_amount ≠ none ∧ employer_month ≠ none) then
    match employer_amount, employer_month with
    | some a, some m => .ok (a * 100, m)
    | _, _ => .error .typeError
  else .error .assertionError

/-- The month loop of `Simulation.simulate_all` (lines 202-224), recursing
on `months_remaining` (120 at the top call, per line 204): simulate one
month of minimum payments, record them at `(120 - months_remaining) + 1`
months in the future, apply the employer contribution when the calendar
month matches, then advance the calendar modulo 12. -/
noncomputable def simulate_months :
    ℕ → ℕ → List Loan → PaymentHistory → ℤ → Option ℕ →
    Option (List Loan × PaymentHistory)
  | 0, _, loans, hist, _, _ => some (loans, hist)
  | m + 1, current_month, loans, hist, employer_amount, employer_month => do
    let (loans2, minimum) ← simulate_one_month_minimum_payments loans (m + 1)
    let hist2 := hist.make_payment minimum ((120 - (m + 1)) + 1)
    let loans3 ←
      if employer_month = some current_month then
        make_additional_payment loans2 employer_amount
      else some loans2
    simulate_months m ((current_month + 1) % 12) loans3 hist2 employer_amount employer_month

/-- One candidate run of the strategy search body (lines 236-238): build a
fresh portfolio from the original loan records, apply the candidate
upfront payment (`early_payment` dollars, so `early_payment * 100`
pennies) through `make_early_payment` (lines 198-200, recorded at 0 months
in the future), then run the full 120-month simulation starting at
calendar month 9, and read off the discounted total. -/
noncomputable def run_candidate (loans : List Loan) (savings_rate : ℚ)
    (employer_amount : ℤ) (employer_month : Option ℕ)
    (early_payment_dollars : ℤ) : Option ℝ := do
  let pf := portfolio_init loans
  let pf2 ← make_additional_payment pf (early_payment_dollars * 100)
  let hist := (PaymentHistory.mk savings_rate 0 0).make_payment
    (early_payment_dollars * 100) 0
  let (_, hist2) ← simulate_months 120 9 pf2 hist employer_amount employer_month
  some hist2.adjusted_pennies

/-- The selection loop of `main` (lines 229-243): walk the candidate
indices keeping `(best_early_payment, best_total)`, updating whenever a
candidate's discounted total is strictly below the best so far.  A crashed
candidate run kills the whole search (`none`). -/
noncomputable def search_loop (cost : ℕ → Option ℝ) :
    List ℕ → Option (ℤ × ℝ) → Option (Option (ℤ × ℝ))
  | [], best => some best
  | i :: rest, best =>
    match cost i with
    | none => none
    | some v =>
      match best with
      | none => search_loop cost rest (some (1000 * (i : ℤ), v))
      | some (bc, bv) =>
        if v < bv then search_loop cost rest (some (1000 * (i : ℤ), v))
        else search_loop cost rest (some (bc, bv))

/-- `main`'s strategy search (lines 227-243): candidate indices
`0, 1, …` range over `int(starting_balance / (1000*100))` values, each
candidate is `1000 * i` dollars, each is run on a fresh simulation, and
the loop keeps the lowest discounted total. -/
noncomputable def strategy_search (loans : List Loan) (savings_rate : ℚ)
    (employer_amount : ℤ) (employer_month : Option ℕ) : Option (Option (ℤ × ℝ)) :=
  search_loop
    (fun i => run_candidate loans savings_rate employer_amount employer_month (1000 * (i : ℤ)))
    (List.range ((balance_pennies (portfolio_init loans)).toNat / 100000))
    none

/-- Follows the spec's words (§4.2): the processing of a single loan
inside `simulate_one_month_minimum_payments` — compute the minimum payment
from the loan's pre-accrual balance, accrue one month of interest, then
pay that minimum against the post-accrual balance; yields the updated loan
and the minimum paid. -/
noncomputable def spec_loan_month_step (months_remaining : ℕ) (l : Loan) :
    Option (Loan × ℤ) := do
  let minimum ← l.minimum_payment_pennies months_remaining
  let l2 ← (l.accrue_one_month_interest).make_payment minimum
  some (l2, minimum)

/-! ## Helper lemmas -/

/-- Full characterisation of a successful `make_payment`: for an in-range
amount on a well-formed loan it succeeds, the interest absorbs the payment
first, the principal takes the remainder, and both stay non-negative. -/
lemma make_payment_spec (l : Loan) (amt : ℤ)
    (hp : 0 ≤ l.principle_pennies) (hi : 0 ≤ l.current_interest_pennies)
    (h0 : 0 ≤ amt) (hle : amt ≤ l.balance) :
    ∃ l2, l.make_payment amt = some l2 ∧
      l2.balance = l.balance - amt ∧
      l2.current_interest_pennies = max (l.current_interest_pennies - amt) 0 ∧
      l2.principle_pennies = l.principle_pennies - max (amt - l.current_interest_pennies) 0 ∧
      0 ≤ l2.principle_pennies ∧ 0 ≤ l2.current_interest_pennies ∧
      l2.name = l.name ∧ l2.interest_rate = l.interest_rate := by
  unfold Loan.make_payment
  rw [Loan.balance] at hle
  split_ifs with h1 h2
  · exact ⟨_, rfl, by simp [Loan.balance]; omega, by simp; omega, by simp; omega,
      by simp; omega, by simp; omega, rfl, rfl⟩
  · exact ⟨_, rfl, by simp [Loan.balance]; omega, by simp; omega, by simp; omega,
      by simp; omega, by simp, rfl, rfl⟩
  · omega

/-- C1: for a loan with non-negative principal and accrued interest and a
payment amount `0 ≤ p ≤ balance`, `make_payment` succeeds, decreases the
balance by exactly `p`, applies the payment first to accrued interest
(`max (interest - p) 0` remains) and the remainder to principal, and
leaves both components non-negative. -/
theorem claim_c1_make_payment_exact (l : Loan) (p : ℤ)
    (hp : 0 ≤ l.principle_pennies) (hi : 0 ≤ l.current_interest_pennies)
    (h0 : 0 ≤ p) (hle : p ≤ l.balance) :
    ∃ l2, l.make_payment p = some l2 ∧
      l2.balance = l.balance - p ∧
      l2.current_interest_pennies = max (l.current_interest_pennies - p) 0 ∧
      l2.principle_pennies = l.principle_pennies - max (p - l.current_interest_pennies) 0 ∧
      0 ≤ l2.principle_pennies ∧ 0 ≤ l2.current_interest_pennies := by
  obtain ⟨l2, h1, h2, h3, h4, h5, h6, -, -⟩ := make_payment_spec l p hp hi h0 hle
  exact ⟨l2, h1, h2, h3, h4, h5, h6⟩

/-- Witness for C1 at a concrete loan: $1.00 principal, $0.50 interest,
paying 120 pennies. -/
theorem claim_c1_make_payment_exact_witness :
    ∃ l2, (Loan.mk "a" 100 50 (1/10)).make_payment 120 = some l2 ∧
      l2.balance = (Loan.mk "a" 100 50 (1/10)).balance - 120 ∧
      l2.current_interest_pennies = max ((Loan.mk "a" 100 50 (1/10)).current_interest_pennies - 120) 0 ∧
      l2.principle_pennies = (Loan.mk "a" 100 50 (1/10)).principle_pennies -
        max (120 - (Loan.mk "a" 100 50 (1/10)).current_interest_pennies) 0 ∧
      0 ≤ l2.principle_pennies ∧ 0 ≤ l2.current_interest_pennies :=
  claim_c1_make_payment_exact (Loan.mk "a" 100 50 (1/10)) 120
    (by decide) (by decide) (by decide) (by decide)

/-- C4: for a loan with non-negative components and a non-negative payment
amount, `make_payment` hits the fatal assertion (`none`) exactly when the
amount exceeds the balance. -/
theorem claim_c4_make_payment_assert_iff (l : Loan) (p : ℤ)
    (hp : 0 ≤ l.principle_pennies) (hi : 0 ≤ l.current_interest_pennies)
    (h0 : 0 ≤ p) :
    l.make_payment p = none ↔ l.balance < p := by
  unfold Loan.make_payment
  split_ifs with h1 h2 <;> simp [Loan.balance] <;> omega

/-- Witness for C4 at a concrete loan and an overpaying amount. -/
theorem claim_c4_make_payment_assert_iff_witness :
    (Loan.mk "a" 100 50 (1/10)).make_payment 200 = none ↔
      (Loan.mk "a" 100 50 (1/10)).balance < 200 :=
  claim_c4_make_payment_assert_iff (Loan.mk "a" 100 50 (1/10)) 200
    (by decide) (by decide) (by decide)

/-- A loan with a rational annual rate `0` has `monthly_rate` exactly `0`. -/
lemma monthly_rate_eq_zero (l : Loan) (h : l.interest_rate = 0) : l.monthly_rate = 0 := by
  simp [Loan.monthly_rate, Loan.daily_rate, h]

/-- A non-negative annual rate gives a non-negative `monthly_rate`. -/
lemma monthly_rate_nonneg (l : Loan) (h : 0 ≤ l.interest_rate) : 0 ≤ l.monthly_rate := by
  have hd : (0:ℝ) ≤ l.daily_rate := by
    have : (0:ℝ) ≤ (l.interest_rate : ℝ) := by exact_mod_cast h
    simp only [Loan.daily_rate]
    positivity
  have h1 : (1:ℝ) ≤ (1 + l.daily_rate) ^ (365 : ℕ) := one_le_pow₀ (by linarith)
  have h2 : (1:ℝ) ≤ ((1 + l.daily_rate) ^ (365 : ℕ)) ^ ((1:ℝ)/12) := by
    calc (1:ℝ) = (1:ℝ) ^ ((1:ℝ)/12) := by rw [Real.one_rpow]
    _ ≤ ((1 + l.daily_rate) ^ (365 : ℕ)) ^ ((1:ℝ)/12) :=
        Real.rpow_le_rpow (by norm_num) h1 (by norm_num)
  simp only [Loan.monthly_rate]
  linarith

/-- A positive annual rate gives a positive `monthly_rate`. -/
lemma monthly_rate_pos (l : Loan) (h : 0 < l.interest_rate) : 0 < l.monthly_rate := by
  have hd : (0:ℝ) < l.daily_rate := by
    have : (0:ℝ) < (l.interest_rate : ℝ) := by exact_mod_cast h
    simp only [Loan.daily_rate]
    positivity
  have h1 : (1:ℝ) < (1 + l.daily_rate) ^ (365 : ℕ) := one_lt_pow₀ (by linarith) (by norm_num)
  have h2 : (1:ℝ) < ((1 + l.daily_rate) ^ (365 : ℕ)) ^ ((1:ℝ)/12) := by
    calc (1:ℝ) = (1:ℝ) ^ ((1:ℝ)/12) := by rw [Real.one_rpow]
    _ < ((1 + l.daily_rate) ^ (365 : ℕ)) ^ ((1:ℝ)/12) :=
        Real.rpow_lt_rpow (by norm_num) h1 (by norm_num)
  simp only [Loan.monthly_rate]
  linarith

/-- C6 (amended): after `accrue_one_month_interest`, the accrued interest
never decreases, and it stays equal (rather than strictly increasing)
exactly when the principal is `0` or the loan's `monthly_rate` is `0` —
interest accrues on the principal only, so a zero-principal loan gains no
interest even at a positive rate. -/
theorem claim_c6_accrual_monotone (l : Loan)
    (hp : 0 ≤ l.principle_pennies) (hr : 0 ≤ l.interest_rate) :
    l.current_interest_pennies ≤ (l.accrue_one_month_interest).current_interest_pennies ∧
    ((l.accrue_one_month_interest).current_interest_pennies = l.current_interest_pennies ↔
      l.principle_pennies = 0 ∨ l.monthly_rate = 0) := by
  have hm := monthly_rate_nonneg l hr
  have hx : (0:ℝ) ≤ (l.principle_pennies : ℝ) * l.monthly_rate :=
    mul_nonneg (by exact_mod_cast hp) hm
  have hc : (0:ℤ) ≤ ⌈(l.principle_pennies : ℝ) * l.monthly_rate⌉ := Int.ceil_nonneg hx
  constructor
  · simp only [Loan.accrue_one_month_interest]
    omega
  · simp only [Loan.accrue_one_month_interest, add_right_eq_self]
    constructor
    · intro h
      have hle : (l.principle_pennies : ℝ) * l.monthly_rate ≤ ((0:ℤ):ℝ) :=
        Int.ceil_le.mp (le_of_eq h)
      have hzero : (l.principle_pennies : ℝ) * l.monthly_rate = 0 :=
        le_antisymm (by exact_mod_cast hle) hx
      rcases mul_eq_zero.mp hzero with h1 | h1
      · exact Or.inl (by exact_mod_cast h1)
      · exact Or.inr h1
    · rintro (h1 | h1)
      · simp [h1]
      · simp [h1]

/-- Witness for C6 (amended) at a concrete loan with positive principal. -/
theorem claim_c6_accrual_monotone_witness :
    (Loan.mk "a" 100 0 (1/10)).current_interest_pennies ≤
      ((Loan.mk "a" 100 0 (1/10)).accrue_one_month_interest).current_interest_pennies ∧
    (((Loan.mk "a" 100 0 (1/10)).accrue_one_month_interest).current_interest_pennies =
        (Loan.mk "a" 100 0 (1/10)).current_interest_pennies ↔
      (Loan.mk "a" 100 0 (1/10)).principle_pennies = 0 ∨
        (Loan.mk "a" 100 0 (1/10)).monthly_rate = 0) :=
  claim_c6_accrual_monotone (Loan.mk "a" 100 0 (1/10)) (by decide) (by norm_num)

/-- C6 counterexample: a loan with zero principal, $1.00 of accrued
interest and a 5% annual rate keeps its accrued interest unchanged under
`accrue_one_month_interest`, although its `monthly_rate` is not `0` —
refuting "stays equal only if `monthly_rate == 0`". -/
theorem claim_c6_counterexample :
    ((Loan.mk "x" 0 100 (1/20)).accrue_one_month_interest).current_interest_pennies =
      (Loan.mk "x" 0 100 (1/20)).current_interest_pennies ∧
    (Loan.mk "x" 0 100 (1/20)).monthly_rate ≠ 0 := by
  constructor
  · simp [Loan.accrue_one_month_interest]
  · exact ne_of_gt (monthly_rate_pos _ (by norm_num))

/-- For a positive `monthly_rate` the annuity denominator
`(1+rate)^n - 1` is positive for every `n ≥ 1`. -/
lemma annuity_denominator_pos (l : Loan) (h : 0 < l.monthly_rate) (m : ℕ) (hm : m ≠ 0) :
    0 < (1 + l.monthly_rate) ^ m - 1 :=
  sub_pos.mpr (one_lt_pow₀ (by linarith) hm)

/-- C7 (amended): for a loan whose rate satisfies `0 < rate < 1`,
`minimum_payment_pennies` is defined at every horizon — the annuity
denominator is nonzero — with the `months_remaining = 0` case returning
the full balance and every positive horizon returning the ceiling of the
annuity formula.  (For `rate = 0`, which input validation accepts, the
denominator is zero and the code dies; see the counterexample.) -/
theorem claim_c7_minimum_payment_defined (l : Loan)
    (h1 : 0 < l.interest_rate) (h2 : l.interest_rate < 1) :
    (∀ m, (l.minimum_payment_pennies m).isSome) ∧
    l.minimum_payment_pennies 0 = some l.balance ∧
    ∀ m, m ≠ 0 → l.minimum_payment_pennies m =
      some ⌈(l.balance : ℝ) *
        (l.monthly_rate * (1 + l.monthly_rate) ^ m / ((1 + l.monthly_rate) ^ m - 1))⌉ := by
  have hmr := monthly_rate_pos l h1
  refine ⟨fun m => ?_, ?_, fun m hm => ?_⟩
  · by_cases hm : m = 0
    · simp [Loan.minimum_payment_pennies, hm]
    · have hd := annuity_denominator_pos l hmr m hm
      simp [Loan.minimum_payment_pennies, hm, hd.ne']
  · simp [Loan.minimum_payment_pennies]
  · have hd := annuity_denominator_pos l hmr m hm
    simp [Loan.minimum_payment_pennies, hm, hd.ne']

/-- Witness for C7 (amended) at a concrete loan with a 10% rate. -/
theorem claim_c7_minimum_payment_defined_witness :
    (∀ m, ((Loan.mk "a" 100 0 (1/10)).minimum_payment_pennies m).isSome) ∧
    (Loan.mk "a" 100 0 (1/10)).minimum_payment_pennies 0 =
      some (Loan.mk "a" 100 0 (1/10)).balance ∧
    ∀ m, m ≠ 0 → (Loan.mk "a" 100 0 (1/10)).minimum_payment_pennies m =
      some ⌈((Loan.mk "a" 100 0 (1/10)).balance : ℝ) *
        ((Loan.mk "a" 100 0 (1/10)).monthly_rate *
            (1 + (Loan.mk "a" 100 0 (1/10)).monthly_rate) ^ m /
          ((1 + (Loan.mk "a" 100 0 (1/10)).monthly_rate) ^ m - 1))⌉ :=
  claim_c7_minimum_payment_defined (Loan.mk "a" 100 0 (1/10)) (by norm_num) (by norm_num)

/-- C7 counterexample: a zero-rate loan — accepted by input validation,
`0 ≤ rate < 1` — makes the annuity denominator `(1+0)^n - 1 = 0`, so
`minimum_payment_pennies 1` divides by zero (Python `ZeroDivisionError`),
refuting "never divides by zero" for every validated loan. -/
theorem claim_c7_counterexample :
    (Loan.mk "z" 100 0 0).minimum_payment_pennies 1 = none := by
  have hmr : (Loan.mk "z" 100 0 0).monthly_rate = 0 := monthly_rate_eq_zero _ rfl
  simp [Loan.minimum_payment_pennies, hmr]

/-- C9 evaluation: the employer-option handling of `Simulation.__init__`
succeeds when both options are given, dies on the `assert` when exactly
one is given, and — contrary to the spec's both-or-neither contract —
dies with a `TypeError` (`None * 100`) when neither is given. -/
theorem claim_c9_sim_init_eval :
    sim_init_employer none none = .error .typeError ∧
    (∀ (a : ℚ) (m : ℕ), sim_init_employer (some a) (some m) = .ok (a * 100, m)) ∧
    (∀ (a : ℚ), sim_init_employer (some a) none = .error .assertionError) ∧
    (∀ (m : ℕ), sim_init_employer none (some m) = .error .assertionError) := by
  refine ⟨rfl, fun a m => ?_, fun a => ?_, fun m => ?_⟩ <;> simp [sim_init_employer]

/-- Follows the spec's words (§4.2): apply `spec_loan_month_step` to every
loan in order, collecting the updated loans and the per-loan minimums
(dying as soon as one loan's step dies, as the Python loop does). -/
noncomputable def spec_month_pipeline (m : ℕ) : List Loan → Option (List (Loan × ℤ))
  | [] => some []
  | l :: rest => do
    let s ← spec_loan_month_step m l
    let ss ← spec_month_pipeline m rest
    some (s :: ss)

/-- C3 (amended): `simulate_one_month_minimum_payments` is exactly the
per-loan pipeline of `spec_loan_month_step` — minimum payment computed
from the pre-accrual balance, then accrual, then payment — applied to
the loans in order, returning the updated loans and the sum of the
minimums (and dying, as the pipeline does, as soon as one loan's step
dies). -/
theorem claim_c3_simulate_month_refines (loans : List Loan) (m : ℕ) :
    simulate_one_month_minimum_payments loans m =
      (spec_month_pipeline m loans).map
        (fun steps => (steps.map Prod.fst, (steps.map Prod.snd).sum)) := by
  induction loans with
  | nil => simp [simulate_one_month_minimum_payments, spec_month_pipeline]
  | cons l rest ih =>
    simp only [simulate_one_month_minimum_payments, spec_month_pipeline, spec_loan_month_step]
    cases hmin : l.minimum_payment_pennies m with
    | none => simp
    | some minimum =>
      cases hpay : (l.accrue_one_month_interest).make_payment minimum with
      | none => simp [hpay]
      | some l2 =>
        simp only [Option.some_bind, ih]
        cases hrest : spec_month_pipeline m rest with
        | none => simp [hpay, hrest]
        | some steps => simp [hpay, hrest, add_comm]

/-- C3 counterexample: on a portfolio holding a zero-rate loan — which
input validation accepts — the call dies with `ZeroDivisionError` instead
of returning the sum of the minimum payments, refuting the claim for
every portfolio. -/
theorem claim_c3_counterexample :
    simulate_one_month_minimum_payments [Loan.mk "z" 100 0 0] 1 = none := by
  have hmr : (Loan.mk "z" 100 0 0).monthly_rate = 0 := monthly_rate_eq_zero _ rfl
  simp [simulate_one_month_minimum_payments, Loan.minimum_payment_pennies, hmr]

/-- A list permuting a two-element list is one of its two arrangements. -/
lemma perm_pair_eq {α} [DecidableEq α] {l : List α} {a b : α} (h : l.Perm [a, b]) :
    l = [a, b] ∨ l = [b, a] := by
  have hlen : l.length = 2 := by simpa using h.length_eq
  match l, hlen, h with
  | [x, y], _, h =>
    have hx : x ∈ [a, b] := h.subset (by simp)
    have hy : y ∈ [a, b] := h.subset (by simp)
    simp only [List.mem_cons, List.mem_singleton, List.not_mem_nil, or_false] at hx hy
    rcases hx with rfl | rfl <;> rcases hy with rfl | rfl
    · have hc := h.count_eq b
      simp [List.count_cons] at hc
      subst hc
      exact Or.inl rfl
    · exact Or.inl rfl
    · exact Or.inr rfl
    · have hc := h.count_eq a
      simp [List.count_cons] at hc
      subst hc
      exact Or.inl rfl

/-- Construction of a two-loan portfolio puts the strictly-higher-rate
loan first, whichever way round the loans arrive. -/
lemma portfolio_init_pair (l1 l2 : Loan) (h : l2.interest_rate < l1.interest_rate)
    (inp : List Loan) (hinp : inp = [l1, l2] ∨ inp = [l2, l1]) :
    portfolio_init inp = [l1, l2] := by
  have htrans : ∀ (x y z : Loan), (decide (y.interest_rate ≤ x.interest_rate)) = true →
      (decide (z.interest_rate ≤ y.interest_rate)) = true →
      (decide (z.interest_rate ≤ x.interest_rate)) = true := by
    intro x y z h1 h2
    simp only [decide_eq_true_eq] at *
    exact le_trans h2 h1
  have htotal : ∀ (x y : Loan),
      ((decide (y.interest_rate ≤ x.interest_rate)) ||
        (decide (x.interest_rate ≤ y.interest_rate))) = true := by
    intro x y
    simp only [Bool.or_eq_true, decide_eq_true_eq]
    exact le_total y.interest_rate x.interest_rate
  have hs := List.sorted_mergeSort htrans htotal inp
  have hp := List.mergeSort_perm inp (fun x y => decide (y.interest_rate ≤ x.interest_rate))
  rcases hinp with rfl | rfl
  · rcases perm_pair_eq hp with he | he
    · exact he
    · rw [he] at hs
      simp only [List.pairwise_cons, decide_eq_true_eq] at hs
      exact absurd (hs.1 l1 (by simp)) (not_le.mpr h)
  · rcases perm_pair_eq hp with he | he
    · rw [he] at hs
      simp only [List.pairwise_cons, decide_eq_true_eq] at hs
      exact absurd (hs.1 l1 (by simp)) (not_le.mpr h)
    · exact he

/-- C2: in a portfolio built from two loans with rates `r1 > r2` and
positive balances, an additional payment that is positive but too small to
retire either loan pays only the higher-rate loan — its balance drops by
exactly the amount — and returns the lower-rate loan entirely unchanged,
whichever way round the loans were given to the constructor. -/
theorem claim_c2_avalanche_order (l1 l2 : Loan) (a : ℤ) (inp : List Loan)
    (hr : l2.interest_rate < l1.interest_rate)
    (hp1 : 0 ≤ l1.principle_pennies) (hi1 : 0 ≤ l1.current_interest_pennies)
    (hb1 : 0 < l1.balance) (hb2 : 0 < l2.balance)
    (ha0 : 0 < a) (ha1 : a < l1.balance) (ha2 : a < l2.balance)
    (hinp : inp = [l1, l2] ∨ inp = [l2, l1]) :
    ∃ l1', make_additional_payment (portfolio_init inp) a = some [l1', l2] ∧
      l1'.balance = l1.balance - a := by
  rw [portfolio_init_pair l1 l2 hr inp hinp]
  obtain ⟨l1', hpay, hbal, -, -, -, -, -, -⟩ :=
    make_payment_spec l1 a hp1 hi1 (le_of_lt ha0) (le_of_lt ha1)
  refine ⟨l1', ?_, hbal⟩
  rw [make_additional_payment]
  rw [if_neg (by omega), if_neg (by omega), if_neg (by omega), hpay]
  rfl

/-- Witness for C2 at two concrete loans given in ascending-rate order. -/
theorem claim_c2_avalanche_order_witness :
    ∃ l1', make_additional_payment
        (portfolio_init [Loan.mk "b" 400 0 (1/20), Loan.mk "a" 500 100 (1/10)]) 50 =
        some [l1', Loan.mk "b" 400 0 (1/20)] ∧
      l1'.balance = (Loan.mk "a" 500 100 (1/10)).balance - 50 :=
  claim_c2_avalanche_order (Loan.mk "a" 500 100 (1/10)) (Loan.mk "b" 400 0 (1/20)) 50
    [Loan.mk "b" 400 0 (1/20), Loan.mk "a" 500 100 (1/10)]
    (by norm_num) (by decide) (by decide) (by decide) (by decide)
    (by decide) (by decide) (by decide) (Or.inr rfl)

/-- Loans with non-negative components have a non-negative balance sum. -/
lemma balance_pennies_nonneg (loans : List Loan)
    (h : ∀ l ∈ loans, 0 ≤ l.balance) : 0 ≤ balance_pennies loans := by
  induction loans with
  | nil => simp [balance_pennies]
  | cons l rest ih =>
    have h1 := h l (List.mem_cons_self l rest)
    have h2 := ih (fun l' hm => h l' (List.mem_cons_of_mem l hm))
    simp only [balance_pennies, List.map_cons, List.sum_cons]
    simp only [balance_pennies] at h2
    omega

/-- Non-negative balances with a non-positive sum are all zero. -/
lemma balance_mem_zero (loans : List Loan)
    (h : ∀ l ∈ loans, 0 ≤ l.balance) (h2 : balance_pennies loans ≤ 0) :
    ∀ l ∈ loans, l.balance = 0 := by
  induction loans with
  | nil => simp
  | cons l rest ih =>
    have h1 := h l (List.mem_cons_self l rest)
    have hrest : ∀ l' ∈ rest, 0 ≤ l'.balance := fun l' hm => h l' (List.mem_cons_of_mem l hm)
    have h3 := balance_pennies_nonneg rest hrest
    simp only [balance_pennies, List.map_cons, List.sum_cons] at h2
    simp only [balance_pennies] at h3
    intro l' hm
    rcases List.mem_cons.mp hm with rfl | hm2
    · omega
    · exact ih hrest (by simp only [balance_pennies]; omega) l' hm2

/-- An additional payment covering the whole balance of a well-formed loan
list succeeds and zeroes every balance. -/
lemma make_additional_payment_payoff (loans : List Loan) :
    ∀ a : ℤ,
    (∀ l ∈ loans, 0 ≤ l.principle_pennies ∧ 0 ≤ l.current_interest_pennies) →
    balance_pennies loans ≤ a →
    ∃ loans', make_additional_payment loans a = some loans' ∧ ∀ l ∈ loans', l.balance = 0 := by
  induction loans with
  | nil => exact fun a _ _ => ⟨[], rfl, by simp⟩
  | cons l rest ih =>
    intro a hnn ha
    have hl := hnn l (List.mem_cons_self l rest)
    have hbl : 0 ≤ l.balance := by simp only [Loan.balance]; omega
    have hrest_nn : ∀ l' ∈ rest, 0 ≤ l'.principle_pennies ∧ 0 ≤ l'.current_interest_pennies :=
      fun l' hm => hnn l' (List.mem_cons_of_mem l hm)
    have hrest_bal : 0 ≤ balance_pennies rest :=
      balance_pennies_nonneg rest (fun l' hm => by
        have := hrest_nn l' hm; simp only [Loan.balance]; omega)
    have hcons : balance_pennies (l :: rest) = l.balance + balance_pennies rest := by
      simp [balance_pennies]
    by_cases h0 : a ≤ 0
    · refine ⟨l :: rest, by rw [make_additional_payment, if_pos h0], ?_⟩
      exact balance_mem_zero (l :: rest)
        (fun l' hm => by
          rcases List.mem_cons.mp hm with rfl | hm2
          · exact hbl
          · have := hrest_nn l' hm2; simp only [Loan.balance]; omega)
        (le_trans ha h0)
    · by_cases hz : l.balance ≤ 0
      · have hbz : l.balance = 0 := le_antisymm hz hbl
        obtain ⟨loans', heq, hall⟩ := ih a hrest_nn (by omega)
        refine ⟨l :: loans', ?_, ?_⟩
        · rw [make_additional_payment, if_neg h0, if_pos hz, heq]
          rfl
        · intro l' hm
          rcases List.mem_cons.mp hm with rfl | hm2
          · exact hbz
          · exact hall l' hm2
      · have hba : l.balance ≤ a := by omega
        obtain ⟨l2, hpay, hbal2, -, -, -, -, -, -⟩ :=
          make_payment_spec l l.balance hl.1 hl.2 hbl (le_refl _)
        obtain ⟨loans', heq, hall⟩ := ih (a - l.balance) hrest_nn (by omega)
        refine ⟨l2 :: loans', ?_, ?_⟩
        · rw [make_additional_payment, if_neg h0, if_neg hz, if_pos hba, hpay]
          simp [heq]
        · intro l' hm
          rcases List.mem_cons.mp hm with rfl | hm2
          · omega
          · exact hall l' hm2

/-- C5: on a portfolio of well-formed loans, an additional payment of at
least the portfolio's total balance completes without error and drives
every loan's balance to exactly `0` (the excess is simply unspent). -/
theorem claim_c5_full_payoff (loans : List Loan) (a : ℤ)
    (hnn : ∀ l ∈ loans, 0 ≤ l.principle_pennies ∧ 0 ≤ l.current_interest_pennies)
    (ha : balance_pennies (portfolio_init loans) ≤ a) :
    ∃ loans', make_additional_payment (portfolio_init loans) a = some loans' ∧
      ∀ l ∈ loans', l.balance = 0 := by
  refine make_additional_payment_payoff (portfolio_init loans) a ?_ ha
  intro l hm
  exact hnn l ((List.mergeSort_perm loans _).subset hm)

unseal List.merge List.mergeSort in
/-- Witness for C5 at a concrete one-loan portfolio and an over-covering
amount. -/
theorem claim_c5_full_payoff_witness :
    ∃ loans', make_additional_payment (portfolio_init [Loan.mk "a" 100 50 (1/10)]) 200 =
        some loans' ∧ ∀ l ∈ loans', l.balance = 0 :=
  claim_c5_full_payoff [Loan.mk "a" 100 50 (1/10)] 200 (by decide) (by decide)

/-- `make_additional_payment` never pays any loan more than its balance,
so on well-formed loans it never hits the overpayment assertion. -/
lemma make_additional_payment_isSome (loans : List Loan) :
    ∀ a : ℤ,
    (∀ l ∈ loans, 0 ≤ l.principle_pennies ∧ 0 ≤ l.current_interest_pennies) →
    ∃ r, make_additional_payment loans a = some r := by
  induction loans with
  | nil => exact fun a _ => ⟨[], rfl⟩
  | cons l rest ih =>
    intro a hnn
    have hl := hnn l (List.mem_cons_self l rest)
    have hbl : 0 ≤ l.balance := by simp only [Loan.balance]; omega
    have hrest_nn : ∀ l' ∈ rest, 0 ≤ l'.principle_pennies ∧ 0 ≤ l'.current_interest_pennies :=
      fun l' hm => hnn l' (List.mem_cons_of_mem l hm)
    by_cases h0 : a ≤ 0
    · exact ⟨l :: rest, by rw [make_additional_payment, if_pos h0]⟩
    · by_cases hz : l.balance ≤ 0
      · obtain ⟨r, heq⟩ := ih a hrest_nn
        exact ⟨l :: r, by rw [make_additional_payment, if_neg h0, if_pos hz, heq]; rfl⟩
      · by_cases hba : l.balance ≤ a
        · obtain ⟨l2, hpay, -⟩ := make_payment_spec l l.balance hl.1 hl.2 hbl (le_refl _)
          obtain ⟨r, heq⟩ := ih (a - l.balance) hrest_nn
          exact ⟨l2 :: r, by
            rw [make_additional_payment, if_neg h0, if_neg hz, if_pos hba, hpay]
            simp [heq]⟩
        · obtain ⟨l2, hpay, -⟩ :=
            make_payment_spec l a hl.1 hl.2 (by omega) (by omega)
          exact ⟨l2 :: rest, by
            rw [make_additional_payment, if_neg h0, if_neg hz, if_neg hba, hpay]
            rfl⟩

/-- The annuity payment factor is at most `1 + rate` for every horizon
`m ≥ 1` at a positive monthly rate. -/
lemma annuity_factor_le (r : ℝ) (hr : 0 < r) (m : ℕ) (hm : 1 ≤ m) :
    r * (1 + r) ^ m / ((1 + r) ^ m - 1) ≤ 1 + r := by
  have hd : (0:ℝ) < (1 + r) ^ m - 1 := sub_pos.mpr (one_lt_pow₀ (by linarith) (by omega))
  rw [div_le_iff hd]
  have hpow : (1 + r) ^ 1 ≤ (1 + r) ^ m := pow_le_pow_right (by linarith) hm
  have hpow2 : (1 + r) ≤ (1 + r) ^ m := by simpa using hpow
  have hexp : (1 + r) * ((1 + r) ^ m - 1) = (1 + r) ^ m + r * (1 + r) ^ m - (1 + r) := by
    ring
  rw [hexp]
  linarith

/-- One loan's step inside `simulate_one_month_minimum_payments` succeeds
when the loan starts the month with zero accrued interest and a positive
rate: the minimum payment never exceeds the post-accrual balance. -/
lemma loan_month_step_isSome (l : Loan)
    (hp : 0 ≤ l.principle_pennies) (hi : l.current_interest_pennies = 0)
    (hr : 0 < l.interest_rate) (m : ℕ) (hm : 1 ≤ m) :
    ∃ v l2, l.minimum_payment_pennies m = some v ∧
      (l.accrue_one_month_interest).make_payment v = some l2 := by
  have hmr := monthly_rate_pos l hr
  have hm0 : m ≠ 0 := by omega
  have hd := annuity_denominator_pos l hmr m hm0
  have hmin : l.minimum_payment_pennies m =
      some ⌈(l.balance : ℝ) *
        (l.monthly_rate * (1 + l.monthly_rate) ^ m / ((1 + l.monthly_rate) ^ m - 1))⌉ := by
    simp [Loan.minimum_payment_pennies, hm0, hd.ne']
  have hbal : l.balance = l.principle_pennies := by simp [Loan.balance, hi]
  have hpr : (0:ℝ) ≤ (l.principle_pennies : ℝ) := by exact_mod_cast hp
  have hfac := annuity_factor_le l.monthly_rate hmr m hm
  have hfac_nonneg : (0:ℝ) ≤
      l.monthly_rate * (1 + l.monthly_rate) ^ m / ((1 + l.monthly_rate) ^ m - 1) :=
    div_nonneg (mul_nonneg hmr.le (pow_nonneg (by linarith) m)) hd.le
  have h3 : (l.principle_pennies : ℝ) * l.monthly_rate ≤
      (⌈(l.principle_pennies : ℝ) * l.monthly_rate⌉ : ℝ) := Int.le_ceil _
  have hv : ⌈(l.balance : ℝ) *
      (l.monthly_rate * (1 + l.monthly_rate) ^ m / ((1 + l.monthly_rate) ^ m - 1))⌉ ≤
      l.principle_pennies + ⌈(l.principle_pennies : ℝ) * l.monthly_rate⌉ := by
    apply Int.ceil_le.mpr
    have h1 : (l.balance : ℝ) *
        (l.monthly_rate * (1 + l.monthly_rate) ^ m / ((1 + l.monthly_rate) ^ m - 1)) ≤
        (l.principle_pennies : ℝ) * (1 + l.monthly_rate) := by
      rw [hbal]
      exact mul_le_mul_of_nonneg_left hfac hpr
    push_cast
    nlinarith
  have hVnn : (0:ℤ) ≤ ⌈(l.balance : ℝ) *
      (l.monthly_rate * (1 + l.monthly_rate) ^ m / ((1 + l.monthly_rate) ^ m - 1))⌉ :=
    Int.ceil_nonneg (mul_nonneg (by rw [hbal]; exact hpr) hfac_nonneg)
  have haccp : (l.accrue_one_month_interest).principle_pennies = l.principle_pennies := rfl
  have hacci : (l.accrue_one_month_interest).current_interest_pennies =
      l.current_interest_pennies + ⌈(l.principle_pennies : ℝ) * l.monthly_rate⌉ := rfl
  have hinn : (0:ℤ) ≤ ⌈(l.principle_pennies : ℝ) * l.monthly_rate⌉ :=
    Int.ceil_nonneg (mul_nonneg hpr hmr.le)
  have hab : (l.accrue_one_month_interest).balance =
      l.principle_pennies + (l.current_interest_pennies +
        ⌈(l.principle_pennies : ℝ) * l.monthly_rate⌉) := rfl
  obtain ⟨l2, hpay, -⟩ := make_payment_spec (l.accrue_one_month_interest)
    ⌈(l.balance : ℝ) * (l.monthly_rate * (1 + l.monthly_rate) ^ m /
      ((1 + l.monthly_rate) ^ m - 1))⌉
    (by rw [haccp]; exact hp) (by rw [hacci]; omega) hVnn
    (by rw [hab]; omega)
  exact ⟨_, l2, hmin, hpay⟩

/-- On a portfolio of zero-accrued-interest, positive-rate loans, one
month of minimum payments never hits the overpayment assertion. -/
lemma simulate_month_isSome (loans : List Loan) (m : ℕ)
    (h : ∀ l ∈ loans, 0 ≤ l.principle_pennies ∧ l.current_interest_pennies = 0 ∧
      0 < l.interest_rate) (hm : 1 ≤ m) :
    ∃ r, simulate_one_month_minimum_payments loans m = some r := by
  induction loans with
  | nil => exact ⟨([], 0), rfl⟩
  | cons l rest ih =>
    have hl := h l (List.mem_cons_self l rest)
    obtain ⟨v, l2, hmin, hpay⟩ := loan_month_step_isSome l hl.1 hl.2.1 hl.2.2 m hm
    obtain ⟨⟨rest2, total⟩, heq⟩ := ih (fun l' hm2 => h l' (List.mem_cons_of_mem l hm2))
    exact ⟨(l2 :: rest2, v + total), by
      rw [simulate_one_month_minimum_payments]
      simp [hmin, hpay, heq]⟩

/-- C10 (amended): the overpayment assertion is unreachable through
`make_additional_payment` on any well-formed portfolio and non-negative
amount; it is unreachable through `simulate_one_month_minimum_payments`
(`m ≥ 1`) provided every loan enters the month with zero accrued
interest — but not in general: a loan carrying positive accrued interest
can be billed more than its post-accrual balance (see the
counterexample). -/
theorem claim_c10_assertion_unreachable (loans1 loans2 : List Loan) (a : ℤ) (m : ℕ) :
    ((∀ l ∈ loans1, 0 ≤ l.principle_pennies ∧ 0 ≤ l.current_interest_pennies ∧
        0 < l.interest_rate ∧ l.interest_rate < 1) → 0 ≤ a →
      (make_additional_payment loans1 a).isSome) ∧
    ((∀ l ∈ loans2, 0 ≤ l.principle_pennies ∧ l.current_interest_pennies = 0 ∧
        0 < l.interest_rate ∧ l.interest_rate < 1) → 1 ≤ m →
      (simulate_one_month_minimum_payments loans2 m).isSome) := by
  constructor
  · intro h _
    obtain ⟨r, hr⟩ := make_additional_payment_isSome loans1 a
      (fun l hm2 => ⟨(h l hm2).1, (h l hm2).2.1⟩)
    simp [hr]
  · intro h hm
    obtain ⟨r, hr⟩ := simulate_month_isSome loans2 m
      (fun l hm2 => ⟨(h l hm2).1, (h l hm2).2.1, (h l hm2).2.2.1⟩) hm
    simp [hr]

/-- Witness for C10 (amended) at concrete portfolios. -/
theorem claim_c10_assertion_unreachable_witness :
    (make_additional_payment [Loan.mk "a" 100 50 (1/10)] 30).isSome ∧
    (simulate_one_month_minimum_payments [Loan.mk "b" 200 0 (1/10)] 1).isSome := by
  have hhyp1 : ∀ l ∈ [Loan.mk "a" 100 50 (1/10)], 0 ≤ l.principle_pennies ∧
      0 ≤ l.current_interest_pennies ∧ 0 < l.interest_rate ∧ l.interest_rate < 1 := by
    intro l hm
    simp only [List.mem_singleton] at hm
    subst hm
    refine ⟨by norm_num, by norm_num, by norm_num, by norm_num⟩
  have hhyp2 : ∀ l ∈ [Loan.mk "b" 200 0 (1/10)], 0 ≤ l.principle_pennies ∧
      l.current_interest_pennies = 0 ∧ 0 < l.interest_rate ∧ l.interest_rate < 1 := by
    intro l hm
    simp only [List.mem_singleton] at hm
    subst hm
    refine ⟨by norm_num, rfl, by norm_num, by norm_num⟩
  exact ⟨(claim_c10_assertion_unreachable [Loan.mk "a" 100 50 (1/10)]
      [Loan.mk "b" 200 0 (1/10)] 30 1).1 hhyp1 (by norm_num),
    (claim_c10_assertion_unreachable [Loan.mk "a" 100 50 (1/10)]
      [Loan.mk "b" 200 0 (1/10)] 30 1).2 hhyp2 (by norm_num)⟩

/-- C10 counterexample: a loan with zero principal, $10.00 of accrued
interest and a 5% rate is billed `ceil(1000*(1+monthly_rate)) ≥ 1001`
pennies at `months_remaining = 1`, exceeding its (unchanged) post-accrual
balance of 1000, so `simulate_one_month_minimum_payments` hits the
overpayment assertion and dies — the assertion IS reachable through the
portfolio's own operations. -/
theorem claim_c10_counterexample :
    simulate_one_month_minimum_payments [Loan.mk "x" 0 1000 (1/20)] 1 = none := by
  have hmr : 0 < (Loan.mk "x" 0 1000 (1/20)).monthly_rate :=
    monthly_rate_pos _ (by norm_num)
  have hd := annuity_denominator_pos (Loan.mk "x" 0 1000 (1/20)) hmr 1 one_ne_zero
  have hsimp : ((Loan.mk "x" 0 1000 (1/20)).balance : ℝ) *
      ((Loan.mk "x" 0 1000 (1/20)).monthly_rate *
          (1 + (Loan.mk "x" 0 1000 (1/20)).monthly_rate) ^ (1:ℕ) /
        ((1 + (Loan.mk "x" 0 1000 (1/20)).monthly_rate) ^ (1:ℕ) - 1)) =
      1000 * (1 + (Loan.mk "x" 0 1000 (1/20)).monthly_rate) := by
    rw [pow_one, add_sub_cancel_left, mul_div_cancel_left₀ _ hmr.ne']
    norm_num [Loan.balance]
  have hmin : (Loan.mk "x" 0 1000 (1/20)).minimum_payment_pennies 1 =
      some ⌈(1000:ℝ) * (1 + (Loan.mk "x" 0 1000 (1/20)).monthly_rate)⌉ := by
    rw [Loan.minimum_payment_pennies]
    simp only [OfNat.ofNat_ne_zero, if_false, one_ne_zero]
    rw [if_neg hd.ne', hsimp]
  have hvge : 1001 ≤ ⌈(1000:ℝ) * (1 + (Loan.mk "x" 0 1000 (1/20)).monthly_rate)⌉ := by
    have h1 : ((1000:ℤ):ℝ) < 1000 * (1 + (Loan.mk "x" 0 1000 (1/20)).monthly_rate) := by
      push_cast
      nlinarith
    exact Int.lt_ceil.mpr h1
  have hacc : (Loan.mk "x" 0 1000 (1/20)).accrue_one_month_interest =
      Loan.mk "x" 0 1000 (1/20) := by
    simp [Loan.accrue_one_month_interest]
  have hpay : ((Loan.mk "x" 0 1000 (1/20)).accrue_one_month_interest).make_payment
      ⌈(1000:ℝ) * (1 + (Loan.mk "x" 0 1000 (1/20)).monthly_rate)⌉ = none := by
    rw [hacc, Loan.make_payment]
    have hci : (Loan.mk "x" 0 1000 (1/20)).current_interest_pennies = 1000 := rfl
    have hpp : (Loan.mk "x" 0 1000 (1/20)).principle_pennies = 0 := rfl
    rw [if_neg (by omega), if_neg (by omega)]
  rw [simulate_one_month_minimum_payments]
  simp only [one_div] at hmin hpay ⊢
  simp [hmin, hpay]

/-- If the selection loop dies, some candidate's run died. -/
lemma search_loop_none (cost : ℕ → Option ℝ) :
    ∀ (idxs : List ℕ) (best : Option (ℤ × ℝ)),
    search_loop cost idxs best = none → ∃ i ∈ idxs, cost i = none := by
  intro idxs
  induction idxs with
  | nil => intro best h; simp [search_loop] at h
  | cons i rest ih =>
    intro best h
    rw [search_loop] at h
    cases hci : cost i with
    | none => exact ⟨i, List.mem_cons_self i rest, hci⟩
    | some v =>
      rw [hci] at h
      dsimp only at h
      cases best with
      | none =>
        obtain ⟨j, hj, hcj⟩ := ih _ h
        exact ⟨j, List.mem_cons_of_mem i hj, hcj⟩
      | some b =>
        obtain ⟨bc, bv⟩ := b
        dsimp only at h
        by_cases hlt : v < bv
        · rw [if_pos hlt] at h
          obtain ⟨j, hj, hcj⟩ := ih _ h
          exact ⟨j, List.mem_cons_of_mem i hj, hcj⟩
        · rw [if_neg hlt] at h
          obtain ⟨j, hj, hcj⟩ := ih _ h
          exact ⟨j, List.mem_cons_of_mem i hj, hcj⟩

/-- Invariant of the selection loop started from a current best: the final
best is at most the current best, comes from the current best or from a
walked candidate, and is at most every successfully evaluated walked
candidate. -/
lemma search_loop_some (cost : ℕ → Option ℝ) :
    ∀ (idxs : List ℕ) (bc : ℤ) (bv : ℝ) (r : Option (ℤ × ℝ)),
    search_loop cost idxs (some (bc, bv)) = some r →
    ∃ c v, r = some (c, v) ∧ v ≤ bv ∧
      ((c = bc ∧ v = bv) ∨ ∃ i ∈ idxs, c = 1000 * (i:ℤ) ∧ cost i = some v) ∧
      ∀ i ∈ idxs, ∀ w, cost i = some w → v ≤ w := by
  intro idxs
  induction idxs with
  | nil =>
    intro bc bv r h
    rw [search_loop] at h
    exact ⟨bc, bv, (Option.some_inj.mp h).symm, le_refl _, Or.inl ⟨rfl, rfl⟩, by simp⟩
  | cons i rest ih =>
    intro bc bv r h
    rw [search_loop] at h
    cases hci : cost i with
    | none => rw [hci] at h; exact absurd h (by simp)
    | some v =>
      rw [hci] at h
      dsimp only at h
      by_cases hlt : v < bv
      · rw [if_pos hlt] at h
        obtain ⟨c, v2, hr, hle, horig, hminr⟩ := ih (1000 * (i:ℤ)) v r h
        refine ⟨c, v2, hr, le_trans hle hlt.le, ?_, ?_⟩
        · rcases horig with ⟨hc, hv⟩ | ⟨j, hj, hc, hcj⟩
          · exact Or.inr ⟨i, List.mem_cons_self i rest, hc, by rw [hci, hv]⟩
          · exact Or.inr ⟨j, List.mem_cons_of_mem i hj, hc, hcj⟩
        · intro j hj w hcw
          rcases List.mem_cons.mp hj with rfl | hj2
          · rw [hci] at hcw
            exact (Option.some_inj.mp hcw) ▸ hle
          · exact hminr j hj2 w hcw
      · rw [if_neg hlt] at h
        obtain ⟨c, v2, hr, hle, horig, hminr⟩ := ih bc bv r h
        refine ⟨c, v2, hr, hle, ?_, ?_⟩
        · rcases horig with ⟨hc, hv⟩ | ⟨j, hj, hc, hcj⟩
          · exact Or.inl ⟨hc, hv⟩
          · exact Or.inr ⟨j, List.mem_cons_of_mem i hj, hc, hcj⟩
        · intro j hj w hcw
          rcases List.mem_cons.mp hj with rfl | hj2
          · rw [hci] at hcw
            have hwv : w = v := (Option.some_inj.mp hcw).symm
            have hbvle : bv ≤ v := not_lt.mp hlt
            exact hwv ▸ le_trans hle hbvle
          · exact hminr j hj2 w hcw

/-- The selection loop started from `None` either walked no candidate at
all, or returns the first-found global minimiser of the walked
candidates. -/
lemma search_loop_start (cost : ℕ → Option ℝ) (idxs : List ℕ) (r : Option (ℤ × ℝ))
    (h : search_loop cost idxs none = some r) :
    (r = none ∧ idxs = []) ∨
    ∃ c v, r = some (c, v) ∧ (∃ i ∈ idxs, c = 1000 * (i:ℤ) ∧ cost i = some v) ∧
      ∀ i ∈ idxs, ∀ w, cost i = some w → v ≤ w := by
  cases idxs with
  | nil =>
    rw [search_loop] at h
    exact Or.inl ⟨(Option.some_inj.mp h).symm, rfl⟩
  | cons i rest =>
    rw [search_loop] at h
    cases hci : cost i with
    | none => rw [hci] at h; exact absurd h (by simp)
    | some v =>
      rw [hci] at h
      dsimp only at h
      obtain ⟨c, v2, hr, hle, horig, hminr⟩ := search_loop_some cost rest (1000 * (i:ℤ)) v r h
      refine Or.inr ⟨c, v2, hr, ?_, ?_⟩
      · rcases horig with ⟨hc, hv⟩ | ⟨j, hj, hc, hcj⟩
        · exact ⟨i, List.mem_cons_self i rest, hc, by rw [hci, hv]⟩
        · exact ⟨j, List.mem_cons_of_mem i hj, hc, hcj⟩
      · intro j hj w hcw
        rcases List.mem_cons.mp hj with rfl | hj2
        · rw [hci] at hcw
          exact (Option.some_inj.mp hcw) ▸ hle
        · exact hminr j hj2 w hcw

/-- C8: the strategy search walks candidate upfront payments
`0, 1000, 2000, …` dollars for exactly `⌊starting_balance_pennies /
100000⌋` steps, running each on a fresh full-horizon simulation
(`run_candidate`), and — unless the range is empty or some run dies —
returns a candidate whose discounted (present-value) total is a global
minimum over the entire candidate range, together with that total. -/
theorem claim_c8_strategy_search_global_min (loans : List Loan) (savings_rate : ℚ)
    (employer_amount : ℤ) (employer_month : Option ℕ) :
    match strategy_search loans savings_rate employer_amount employer_month with
    | none => ∃ i < (balance_pennies (portfolio_init loans)).toNat / 100000,
        run_candidate loans savings_rate employer_amount employer_month (1000 * (i:ℤ)) = none
    | some none => (balance_pennies (portfolio_init loans)).toNat / 100000 = 0
    | some (some (c, v)) =>
        ∃ i < (balance_pennies (portfolio_init loans)).toNat / 100000,
          c = 1000 * (i:ℤ) ∧
          run_candidate loans savings_rate employer_amount employer_month (1000 * (i:ℤ)) =
            some v ∧
          ∀ j < (balance_pennies (portfolio_init loans)).toNat / 100000, ∀ w,
            run_candidate loans savings_rate employer_amount employer_month (1000 * (j:ℤ)) =
              some w → v ≤ w := by
  cases h : strategy_search loans savings_rate employer_amount employer_month with
  | none =>
    rw [strategy_search] at h
    obtain ⟨i, hi, hci⟩ := search_loop_none _ _ _ h
    exact ⟨i, List.mem_range.mp hi, hci⟩
  | some r =>
    rw [strategy_search] at h
    rcases search_loop_start _ _ _ h with ⟨rfl, hemp⟩ | ⟨c, v, rfl, ⟨i, hi, hc, hci⟩, hmin⟩
    · simpa using List.range_eq_nil.mp hemp
    · exact ⟨i, List.mem_range.mp hi, hc, hci,
        fun j hj w hcw => hmin j (List.mem_range.mpr hj) w hcw⟩
